import Mathlib

/-!
Verification of the 2D DLR imaginary-frequency operator (`dlr2d_imfreq.hpp`).

The operator class `imfreq_ops_2d` owns a set of 2D Matsubara-frequency nodes,
a 1D real-frequency basis, the coefficient-to-value matrix `cf2if` and the LU
factorization (`if2cf.lu`, `if2cf.piv`) of the value-to-coefficient transform.
Its transforms reshape batched arrays of rank >= 1 to `r x batch` matrices and
apply dense linear algebra column by column.

Modelling conventions:
* Arithmetic is exact (rational components); `CQ` models `std::complex<double>`.
* nda arrays are modelled by their extents plus the logical entry map; the
  reshape of a contiguous array to an `r x (size/r)` matrix pairs each matrix
  column with one flattened batch multi-index, so `BArr` stores the leading
  extent, the batch extents, and entries addressed by (leading index,
  flattened batch index).
* LAPACK routines (`getrf`, `getrs`) are external: `getrs` is passed in as a
  function of the stored LU factors, pivots and right-hand sides, and the
  theorems assume its documented contract (`GetrsOk`, `ColwiseGetrs`).
* The node-selection and matrix-building routines of `dlr2d.hpp` are not part
  of the sources at hand; where a statement depends on them they are modelled
  from the specification and marked as such.
-/

namespace Dlr2d

/-- Dense matrix in the sense of an nda matrix (`fmatrix`): an extent pair
together with the entries, addressed (row, column). Entries outside the
extents are irrelevant; `matEq` compares only in-range entries. -/
structure FMat (α : Type) where
  rows : ℕ
  cols : ℕ
  entry : ℕ → ℕ → α

/-- Batched nda array of rank >= 1, shape `lead :: batch`: entries are
addressed by the leading index and the flattened batch multi-index, mirroring
the reshape to an `r x (size/r)` matrix performed by the transforms. -/
structure BArr (α : Type) where
  lead : ℕ
  batch : List ℕ
  entry : ℕ → ℕ → α

/-- Shape of a batched array (`lead :: batch`), as reported by nda. -/
def BArr.shape {α : Type} (g : BArr α) : List ℕ := g.lead :: g.batch

/-- Flattened batch size: product of the non-leading extents. -/
def BArr.bsize {α : Type} (g : BArr α) : ℕ := g.batch.prod

/-- Total element count, nda `size()`: product of all extents. -/
def BArr.size {α : Type} (g : BArr α) : ℕ := g.shape.prod

/-- Finite sum of `f 0 + f 1 + ... + f (n-1)`, asking only for `Zero`/`Add`. -/
def sumUpTo {α : Type} [Zero α] [Add α] : ℕ → (ℕ → α) → α
  | 0, _ => 0
  | n + 1, f => sumUpTo n f + f n

/-- Dense matrix product, row of `A` against column of `B`. -/
def matMul {α : Type} [Zero α] [Add α] [Mul α] (A B : FMat α) : FMat α :=
  ⟨A.rows, B.cols, fun i j => sumUpTo A.cols (fun k => A.entry i k * B.entry k j)⟩

/-- Equality of matrices: same extents and same in-range entries. -/
def matEq {α : Type} (A B : FMat α) : Prop :=
  A.rows = B.rows ∧ A.cols = B.cols ∧ ∀ i < A.rows, ∀ j < A.cols, A.entry i j = B.entry i j

/-- The `r x bsize` matrix view of a batched array (leading axis as rows, one
column per flattened batch multi-index). -/
def bmat {α : Type} (g : BArr α) : FMat α := ⟨g.lead, g.bsize, g.entry⟩

/-- One batch column of a batched array, as a rank-1 array (shape `[lead]`). -/
def colArr {α : Type} (g : BArr α) (c : ℕ) : BArr α := ⟨g.lead, [], fun i _ => g.entry i c⟩

/-- Model of `std::complex<double>` with exact rational components. -/
structure CQ where
  re : ℚ
  im : ℚ
deriving DecidableEq

instance : Zero CQ := ⟨⟨0, 0⟩⟩

instance : One CQ := ⟨⟨1, 0⟩⟩

instance : Add CQ := ⟨fun a b => ⟨a.re + b.re, a.im + b.im⟩⟩

instance : Mul CQ := ⟨fun a b => ⟨a.re * b.re - a.im * b.im, a.re * b.im + a.im * b.re⟩⟩

/-- Real-to-complex promotion (`double` embedded into `dcomplex`). -/
def ratToCQ (x : ℚ) : CQ := ⟨x, 0⟩

/-- State of an `imfreq_ops_2d` object. `eps_` is `Option`-valued because the
reconstruction constructor leaves the member `eps_` uninitialized
(indeterminate in C++), modelled as `none`. The scalar type `α` is the entry
type of `fmatrix`. -/
structure ImfreqOps2d (α : Type) where
  lambda_ : ℚ
  eps_ : Option ℚ
  r : ℕ
  dlr_rf : List ℚ
  dlr2d_if : FMat ℤ
  cf2if : FMat α
  if2cf_lu : FMat α
  if2cf_piv : List ℤ

/-- Interface of LAPACK `getrs`: a function of the LU factors, the pivot
vector and the right-hand-side matrix, returning the overwritten right-hand
sides. An external routine, so kept abstract. -/
def GetrsFn (α : Type) : Type := FMat α → List ℤ → FMat α → FMat α

/-- Documented contract of `getrs` on an operator whose stored factors came
from a successful `getrf` of `cf2if` (the ready state): the returned matrix
has the extents of the right-hand sides and solves `cf2if * X = B`. -/
def GetrsOk {α : Type} [Zero α] [Add α] [Mul α]
    (getrs : GetrsFn α) (op : ImfreqOps2d α) : Prop :=
  ∀ B : FMat α, B.rows = op.r →
    (getrs op.if2cf_lu op.if2cf_piv B).rows = op.r ∧
    (getrs op.if2cf_lu op.if2cf_piv B).cols = B.cols ∧
    matEq (matMul op.cf2if (getrs op.if2cf_lu op.if2cf_piv B)) B

/-- Documented multiple-right-hand-side behaviour of `getrs`: column `c` of
the solution depends only on column `c` of the input, so solving a batch and
solving one column alone agree. -/
def ColwiseGetrs {α : Type} (getrs : GetrsFn α) : Prop :=
  ∀ lu : FMat α, ∀ piv : List ℤ, ∀ B B1 : FMat α, ∀ c : ℕ, c < B.cols →
    B1.rows = B.rows → B1.cols = 1 → (∀ i : ℕ, B1.entry i 0 = B.entry i c) →
    ∀ i < B.rows, (getrs lu piv B).entry i c = (getrs lu piv B1).entry i 0

/-- `imfreq_ops_2d::vals2coefs`: after the shape check, the code copies `g`
into a Fortran-layout array, reshapes it to an `r x (g.size()/r)` matrix
(pairing each column with one batch multi-index), solves against the stored LU
factors and pivots with `getrs`, and returns the result in the shape of `g`. -/
def vals2coefs {α : Type} (getrs : GetrsFn α) (op : ImfreqOps2d α) (g : BArr α) :
    Except String (BArr α) :=
  if op.r ≠ g.lead then .error "First dim of g != # DLR imaginary frequency nodes."
  else
    let gfv : FMat α := ⟨op.r, g.size / op.r, fun i c => g.entry i c⟩
    let sol := getrs op.if2cf_lu op.if2cf_piv gfv
    .ok ⟨op.r, g.batch, fun i c => sol.entry i c⟩

/-- `imfreq_ops_2d::coefs2vals`: after the shape check, reshape `gc` to an
`r x (gc.size()/r)` matrix viewed in the scalar type of `gc`, left-multiply by
`cf2if`, and reshape to the output shape `(r, gc.shape(1), ...)`. The map `ι`
is the scalar promotion into the entry type of `cf2if` (`make_cplx_t`). -/
def coefs2vals {α β : Type} [Zero β] [Add β] [Mul β]
    (ι : α → β) (op : ImfreqOps2d β) (gc : BArr α) : Except String (BArr β) :=
  if op.r ≠ gc.lead then .error "First dim of gc != DLR rank r."
  else
    let gcrs : FMat β := ⟨op.r, gc.size / op.r, fun i c => ι (gc.entry i c)⟩
    let g := matMul op.cf2if gcrs
    .ok ⟨op.r, gc.batch, fun i c => g.entry i c⟩

/-- Rank-1 branch of `imfreq_ops_2d::coefs2eval` (the
`if constexpr (T::rank == 1)` case): after the shape check it returns
`dcomplex{0}`; the evaluation of the DLR expansion is left unimplemented
(marked FIXME in the source), so the result ignores `gc`, `n` and `m`. -/
def coefs2eval1 {α : Type} (op : ImfreqOps2d α) (gc : BArr α) (n m : ℤ) :
    Except String CQ :=
  if op.r ≠ gc.lead then .error "First dim of g != DLR rank r."
  else .ok (0 : CQ)

/-- Modelled from the spec: the fresh-construction path
`imfreq_ops_2d(lambda, eps)` calls routines that live outside the sources at
hand, so their results are taken as arguments. `nodes` is the result of
`build_dlr2d_if(lambda, eps)` (spec: an ordered sequence of Matsubara index
pairs, stored as an `npairs x 2` integer array, as the `get_ifnodes(i)`
accessor confirms); `rf` is the result of `cppdlr::build_dlr_rf(lambda, eps,
false)`; `bcf2if` models `build_cf2if`; `getrf` models the LAPACK
factorization producing LU factors and pivots. The body mirrors the
constructor: in particular `r` is set to `dlr2d_if.size()`, which for an nda
array is the total element count `rows * cols` of the node array. -/
def freshCtor {α : Type} (lambda eps : ℚ) (nodes : FMat ℤ) (rf : List ℚ)
    (bcf2if : ℚ → List ℚ → FMat ℤ → FMat α) (getrf : FMat α → FMat α × List ℤ) :
    ImfreqOps2d α :=
  let cf2if := bcf2if lambda rf nodes
  let fact := getrf cf2if
  { lambda_ := lambda, eps_ := some eps, r := nodes.rows * nodes.cols,
    dlr_rf := rf, dlr2d_if := nodes, cf2if := cf2if,
    if2cf_lu := fact.1, if2cf_piv := fact.2 }

/-- The field-wise reconstruction constructor
`imfreq_ops_2d(lambda, eps, dlr_rf, dlr2d_if, cf2if, if2cf_lu, if2cf_piv)`.
Its member-initializer list sets `r` to `cf2if.extent(1)` (the column count)
and never mentions `eps_`, which therefore stays uninitialized (`none`); the
`eps` parameter is unused. No node selection and no factorization happen. -/
def reconCtor {α : Type} (lambda eps : ℚ) (rf : List ℚ) (nodes : FMat ℤ)
    (cf2if lu : FMat α) (piv : List ℤ) : ImfreqOps2d α :=
  { lambda_ := lambda, eps_ := none, r := cf2if.cols, dlr_rf := rf,
    dlr2d_if := nodes, cf2if := cf2if, if2cf_lu := lu, if2cf_piv := piv }

/-- A persisted HDF5 record of an operator: the format tag attribute plus the
named datasets written by `h5_write`. The `eps` field is `Option`-valued: it
records the bits written for the tolerance, `none` when the member had never
been initialized. -/
structure H5Record (α : Type) where
  tag : String
  lambda : ℚ
  eps : Option ℚ
  rf : List ℚ
  ifnodes : FMat ℤ
  cf2if : FMat α
  if2cf_lu : FMat α
  if2cf_piv : List ℤ

/-- `h5_write`: creates the subgroup, writes the format tag
`"cppdlr::imfreq_ops"`, then the fields `lambda`, `eps`, `rf`, `if`, `cf2if`,
`if2cf_lu`, `if2cf_piv` from the accessors of the operator. -/
def h5_write {α : Type} (op : ImfreqOps2d α) : H5Record α :=
  { tag := "cppdlr::imfreq_ops", lambda := op.lambda_, eps := op.eps_,
    rf := op.dlr_rf, ifnodes := op.dlr2d_if, cf2if := op.cf2if,
    if2cf_lu := op.if2cf_lu, if2cf_piv := op.if2cf_piv }

/-- `h5_read`: opens the subgroup and first asserts that the stored format tag
equals `"cppdlr::imfreq_ops"`, failing before any data field is read; on a
match it reads the fields and rebuilds the operator through the field-wise
reconstruction constructor. (The `getD 0` stands for whatever tolerance bits
were stored; the constructor discards them either way.) -/
def h5_read {α : Type} (rec : H5Record α) : Except String (ImfreqOps2d α) :=
  if rec.tag = "cppdlr::imfreq_ops" then
    .ok (reconCtor rec.lambda (rec.eps.getD 0) rec.rf rec.ifnodes
      rec.cf2if rec.if2cf_lu rec.if2cf_piv)
  else .error "hdf5_format attribute mismatch: expected cppdlr::imfreq_ops"

/-- Identity solver: stands in for `getrs` on a concrete operator whose
`cf2if` is the identity matrix (then returning the right-hand sides unchanged
satisfies the `getrs` contract). -/
def idGetrs : GetrsFn ℚ := fun _ _ B => B

/-- The 2 x 2 identity matrix over ℚ. -/
def idMat2 : FMat ℚ := ⟨2, 2, fun i j => if i = j then 1 else 0⟩

/-- A concrete ready operator (rank 2, identity transform matrix) used to
instantiate the theorems below on explicit inputs. -/
def wOp : ImfreqOps2d ℚ :=
  { lambda_ := 10, eps_ := some (1/100000), r := 2, dlr_rf := [1, -1],
    dlr2d_if := ⟨2, 2, fun _ _ => 0⟩, cf2if := idMat2, if2cf_lu := idMat2,
    if2cf_piv := [1, 2] }

/-- A concrete rank-2 batched value array (shape `[2, 2]`) for `wOp`. -/
def wG : BArr ℚ := ⟨2, [2], fun i c => (i : ℚ) + 2 * (c : ℚ) + 1⟩

/-- A concrete rank-1 array of the wrong leading length for `wOp`. -/
def wBad : BArr ℚ := ⟨1, [], fun _ _ => 0⟩

/-- A concrete rank-1 coefficient array (shape `[2]`) for `wOp`. -/
def wGc1 : BArr ℚ := ⟨2, [], fun i _ => (i : ℚ)⟩

/-- A concrete ready operator over complex scalars (rank 1, genuinely complex
`cf2if`, entry `i`). -/
def wOpC : ImfreqOps2d CQ :=
  { lambda_ := 10, eps_ := some (1/100000), r := 1, dlr_rf := [1],
    dlr2d_if := ⟨1, 2, fun _ _ => 0⟩, cf2if := ⟨1, 1, fun _ _ => ⟨0, 1⟩⟩,
    if2cf_lu := ⟨1, 1, fun _ _ => ⟨0, 1⟩⟩, if2cf_piv := [1] }

/-- A concrete real-valued coefficient array (shape `[1, 2]`) for `wOpC`. -/
def wGcR : BArr ℚ := ⟨1, [2], fun i c => (i : ℚ) + (c : ℚ)⟩

/-- A persisted record carrying a wrong format tag. -/
def wBadRec : H5Record ℚ :=
  { tag := "cppdlr::imtime_ops", lambda := 10, eps := some 1, rf := [],
    ifnodes := ⟨0, 2, fun _ _ => 0⟩, cf2if := ⟨0, 0, fun _ _ => 0⟩,
    if2cf_lu := ⟨0, 0, fun _ _ => 0⟩, if2cf_piv := [] }

/-- Modelled from the spec: a concrete output of `build_dlr2d_if` holding the
single Matsubara index pair `(0, 0)` — an ordered sequence of node pairs is
stored as an `npairs x 2` integer array. -/
def wNodes1 : FMat ℤ := ⟨1, 2, fun _ _ => 0⟩

/-- Modelled from the spec: `build_cf2if(lambda, dlr_rf, dlr2d_if)` returns
the dense matrix whose entry `(i, j)` is the value of the `j`-th 2D basis
function at the `i`-th selected node — one row and one column per node. The
concrete values are irrelevant to the rank claims, so they are all 1 here. -/
def wBcf : ℚ → List ℚ → FMat ℤ → FMat ℚ :=
  fun _ _ nodes => ⟨nodes.rows, nodes.rows, fun _ _ => 1⟩

/-- A stand-in LAPACK `getrf`: returns the matrix itself as LU factors with a
trivial pivot vector (the factor values are irrelevant to the rank claims). -/
def wGetrf : FMat ℚ → FMat ℚ × List ℤ := fun A => (A, [1])

/-- When the leading extent is the rank and the rank is positive, the column
count `size/r` of the reshaped matrix is the flattened batch size. -/
theorem size_div_eq {α : Type} (op : ImfreqOps2d α) (g : BArr α)
    (hg : g.lead = op.r) (hr : 0 < op.r) : g.size / op.r = g.bsize := by
  unfold BArr.size BArr.shape BArr.bsize
  rw [List.prod_cons, hg, Nat.mul_div_cancel_left _ hr]

/-- Unfolding of `vals2coefs` on an input that passes the shape check. -/
theorem vals2coefs_ok {α : Type} (getrs : GetrsFn α) (op : ImfreqOps2d α)
    (g : BArr α) (hg : g.lead = op.r) :
    vals2coefs getrs op g = .ok ⟨op.r, g.batch, fun i c =>
      (getrs op.if2cf_lu op.if2cf_piv
        ⟨op.r, g.size / op.r, fun i c => g.entry i c⟩).entry i c⟩ := by
  unfold vals2coefs
  rw [if_neg (by omega)]

/-- Unfolding of `coefs2vals` on an input that passes the shape check. -/
theorem coefs2vals_ok {α β : Type} [Zero β] [Add β] [Mul β]
    (ι : α → β) (op : ImfreqOps2d β) (gc : BArr α) (hgc : gc.lead = op.r) :
    coefs2vals ι op gc = .ok ⟨op.r, gc.batch, fun i c =>
      (matMul op.cf2if
        ⟨op.r, gc.size / op.r, fun i c => ι (gc.entry i c)⟩).entry i c⟩ := by
  unfold coefs2vals
  rw [if_neg (by omega)]

/-- `vals2coefs` reads only the rank, the LU factors and the pivots from the
operator, so it agrees on two operators sharing those fields. -/
theorem vals2coefs_eqOps {α : Type} (getrs : GetrsFn α) (op1 op2 : ImfreqOps2d α)
    (hrr : op1.r = op2.r) (hlu : op1.if2cf_lu = op2.if2cf_lu)
    (hpiv : op1.if2cf_piv = op2.if2cf_piv) (g : BArr α) :
    vals2coefs getrs op1 g = vals2coefs getrs op2 g := by
  unfold vals2coefs
  rw [hrr, hlu, hpiv]

/-- `coefs2vals` reads only the rank and `cf2if` from the operator. -/
theorem coefs2vals_eqOps {α β : Type} [Zero β] [Add β] [Mul β]
    (ι : α → β) (op1 op2 : ImfreqOps2d β) (hrr : op1.r = op2.r)
    (hcf : op1.cf2if = op2.cf2if) (gc : BArr α) :
    coefs2vals ι op1 gc = coefs2vals ι op2 gc := by
  unfold coefs2vals
  rw [hrr, hcf]

/-- `coefs2eval1` reads only the rank from the operator. -/
theorem coefs2eval1_eqOps {α : Type} (op1 op2 : ImfreqOps2d α)
    (hrr : op1.r = op2.r) (gc : BArr α) (n m : ℤ) :
    coefs2eval1 op1 gc n m = coefs2eval1 op2 gc n m := by
  unfold coefs2eval1
  rw [hrr]

/-- The identity solver satisfies the `getrs` contract on `wOp`, whose
`cf2if` is the identity matrix. -/
theorem wOp_getrsOk : GetrsOk idGetrs wOp := by
  intro B hB
  refine ⟨hB, rfl, hB.symm, rfl, ?_⟩
  intro i hi j hj
  have hi2 : i < 2 := hi
  show sumUpTo wOp.cf2if.cols (fun k => wOp.cf2if.entry i k * B.entry k j) = B.entry i j
  interval_cases i <;> simp [sumUpTo, wOp, idMat2]

/-- The identity solver treats right-hand-side columns independently. -/
theorem idGetrs_colwise : ColwiseGetrs idGetrs := by
  intro lu piv B B1 c hc h1r h1c h1e i hi
  exact (h1e i).symm

/-- C1: for a ready operator (positive rank, `getrs` obeying its contract on
the stored factors of `cf2if`) and any batched array `g` whose leading axis
has length `r`, `coefs2vals` applied to the result of `vals2coefs g` returns
an array of the shape of `g` whose in-range entries equal those of `g` — the
model computes in exact arithmetic, so the round trip is exact, subsuming the
small multiple of the tolerance allowed by the specification. -/
theorem c1_roundtrip {α : Type} [Zero α] [Add α] [Mul α]
    (op : ImfreqOps2d α) (getrs : GetrsFn α) (hsolve : GetrsOk getrs op)
    (g : BArr α) (hg : g.lead = op.r) (hr : 0 < op.r) :
    ∃ gc g2 : BArr α, vals2coefs getrs op g = .ok gc ∧
      coefs2vals (fun x => x) op gc = .ok g2 ∧
      g2.shape = g.shape ∧
      ∀ i < g.lead, ∀ c < g.bsize, g2.entry i c = g.entry i c := by
  have hdiv := size_div_eq op g hg hr
  obtain ⟨hrows, hcols, hmeq⟩ :=
    hsolve ⟨op.r, g.size / op.r, fun i c => g.entry i c⟩ rfl
  have hcf : op.cf2if.rows = op.r := hmeq.1
  refine ⟨_, _, vals2coefs_ok getrs op g hg,
    coefs2vals_ok (fun x => x) op _ rfl, by simp [BArr.shape, hg], ?_⟩
  intro i hi c hc
  have h1 : i < op.cf2if.rows := by rw [hcf, ← hg]; exact hi
  have h2 : c < (getrs op.if2cf_lu op.if2cf_piv
      ⟨op.r, g.size / op.r, fun i c => g.entry i c⟩).cols := by
    rw [hcols]
    show c < g.size / op.r
    rw [hdiv]
    exact hc
  exact hmeq.2.2 i h1 c h2

/-- C1 witness: the round trip evaluated on the concrete rank-2 operator
`wOp` with the identity solver and the concrete batched array `wG`. -/
theorem c1_roundtrip_witness :
    (GetrsOk idGetrs wOp ∧ wG.lead = wOp.r ∧ 0 < wOp.r) ∧
    (∃ gc g2 : BArr ℚ, vals2coefs idGetrs wOp wG = .ok gc ∧
      coefs2vals (fun x => x) wOp gc = .ok g2 ∧
      g2.shape = wG.shape ∧
      ∀ i < wG.lead, ∀ c < wG.bsize, g2.entry i c = wG.entry i c) :=
  ⟨⟨wOp_getrsOk, rfl, by decide⟩,
    c1_roundtrip wOp idGetrs wOp_getrsOk wG rfl (by decide)⟩

/-- C2: for a ready operator, `vals2coefs` on an array `g` with leading axis
of length `r` succeeds with an array of the shape of `g` whose `r x batch`
matrix view solves the linear system `cf2if * X = g` (the effect of the
`getrs` back-substitution against the stored factorization and pivots); the
computation happens on a fresh layout-converted copy, so in this pure model
the input `g` is left untouched. -/
theorem c2_vals2coefs_solves {α : Type} [Zero α] [Add α] [Mul α]
    (op : ImfreqOps2d α) (getrs : GetrsFn α) (hsolve : GetrsOk getrs op)
    (g : BArr α) (hg : g.lead = op.r) (hr : 0 < op.r) :
    ∃ out : BArr α, vals2coefs getrs op g = .ok out ∧
      out.shape = g.shape ∧
      matEq (matMul op.cf2if (bmat out)) (bmat g) := by
  have hdiv := size_div_eq op g hg hr
  obtain ⟨hrows, hcols, hmeq⟩ :=
    hsolve ⟨op.r, g.size / op.r, fun i c => g.entry i c⟩ rfl
  have hcf : op.cf2if.rows = op.r := hmeq.1
  refine ⟨_, vals2coefs_ok getrs op g hg, by simp [BArr.shape, hg], ?_, rfl, ?_⟩
  · show op.cf2if.rows = g.lead
    rw [hcf, hg]
  · intro i hi j hj
    have h1 : i < op.cf2if.rows := hi
    have h3 : j < (getrs op.if2cf_lu op.if2cf_piv
        ⟨op.r, g.size / op.r, fun i c => g.entry i c⟩).cols := by
      rw [hcols]
      show j < g.size / op.r
      rw [hdiv]
      exact hj
    exact hmeq.2.2 i h1 j h3

/-- C2 witness: the solve property evaluated on the concrete operator `wOp`
with the identity solver and the concrete batched array `wG`. -/
theorem c2_vals2coefs_solves_witness :
    (GetrsOk idGetrs wOp ∧ wG.lead = wOp.r ∧ 0 < wOp.r) ∧
    (∃ out : BArr ℚ, vals2coefs idGetrs wOp wG = .ok out ∧
      out.shape = wG.shape ∧
      matEq (matMul wOp.cf2if (bmat out)) (bmat wG)) :=
  ⟨⟨wOp_getrsOk, rfl, by decide⟩,
    c2_vals2coefs_solves wOp idGetrs wOp_getrsOk wG rfl (by decide)⟩

/-- C3: an input whose leading axis differs from the rank makes `vals2coefs`
and `coefs2vals` fail with the shape-mismatch error (the thrown
`std::runtime_error`), so no input is ever truncated or padded. -/
theorem c3_shape_mismatch {α β : Type} [Zero α] [Add α] [Mul α]
    (op : ImfreqOps2d α) (getrs : GetrsFn α) (ι : β → α)
    (g : BArr α) (gc : BArr β) (hg : g.lead ≠ op.r) (hgc : gc.lead ≠ op.r) :
    vals2coefs getrs op g =
      .error "First dim of g != # DLR imaginary frequency nodes." ∧
    coefs2vals ι op gc = .error "First dim of gc != DLR rank r." := by
  constructor
  · unfold vals2coefs
    rw [if_pos (by omega)]
  · unfold coefs2vals
    rw [if_pos (by omega)]

/-- C3 witness: both transforms reject the length-1 array `wBad` on the
rank-2 operator `wOp`. -/
theorem c3_shape_mismatch_witness :
    (wBad.lead ≠ wOp.r) ∧
    (vals2coefs idGetrs wOp wBad =
      .error "First dim of g != # DLR imaginary frequency nodes." ∧
    coefs2vals (fun x : ℚ => x) wOp wBad =
      .error "First dim of gc != DLR rank r.") :=
  ⟨by decide,
    c3_shape_mismatch wOp idGetrs (fun x : ℚ => x) wBad wBad (by decide) (by decide)⟩

/-- C4: in the fresh-construction path the rank is set to `dlr2d_if.size()`,
the total element count of the `npairs x 2` node array; on the node set with
the single pair `(0, 0)` the constructed operator reports rank 2 while there
is 1 node pair (and `cf2if` has 1 row), contradicting the claimed invariant
`rank == number of node pairs == cf2if.rows`. -/
theorem c4_fresh_rank_bug :
    (freshCtor 10 (1/100000) wNodes1 [1] wBcf wGetrf).r = 2 ∧
    wNodes1.rows = 1 ∧
    (freshCtor 10 (1/100000) wNodes1 [1] wBcf wGetrf).cf2if.rows = 1 ∧
    (freshCtor 10 (1/100000) wNodes1 [1] wBcf wGetrf).r ≠ wNodes1.rows ∧
    (freshCtor 10 (1/100000) wNodes1 [1] wBcf wGetrf).r ≠
      (freshCtor 10 (1/100000) wNodes1 [1] wBcf wGetrf).cf2if.rows :=
  ⟨rfl, rfl, rfl, by decide, by decide⟩

/-- C5 counterexample: the persisted tolerance does not round-trip. `wOp`
stores `eps_ = some (1/100000)`; after `h5_write` followed by `h5_read` the
reconstructed operator's `eps_` member is uninitialized (`none`), because the
reconstruction constructor ignores its `eps` argument, so the claim that the
stored tolerance round-trips to bit-identical behaviour fails. -/
theorem c5_eps_not_roundtripped :
    wOp.eps_ = some (1/100000) ∧
    (h5_read (h5_write wOp)).map ImfreqOps2d.eps_ = .ok none ∧
    (some ((1 : ℚ)/100000) : Option ℚ) ≠ none :=
  ⟨rfl, rfl, by decide⟩

/-- C5 (amended): writing a ready operator (`cf2if.cols = r`) and reading the
record back skips node selection and factorization and yields an operator
agreeing with the original on every stored field except the tolerance, which
is left uninitialized; `vals2coefs`, `coefs2vals` and `coefs2eval` then
produce bit-identical outputs on every input. -/
theorem c5_persistence_roundtrip {α β : Type} [Zero α] [Add α] [Mul α]
    (op : ImfreqOps2d α) (getrs : GetrsFn α) (ι : β → α)
    (hcols : op.cf2if.cols = op.r) :
    ∃ op2 : ImfreqOps2d α, h5_read (h5_write op) = .ok op2 ∧
      op2.lambda_ = op.lambda_ ∧ op2.r = op.r ∧ op2.dlr_rf = op.dlr_rf ∧
      op2.dlr2d_if = op.dlr2d_if ∧ op2.cf2if = op.cf2if ∧
      op2.if2cf_lu = op.if2cf_lu ∧ op2.if2cf_piv = op.if2cf_piv ∧
      op2.eps_ = none ∧
      (∀ g : BArr α, vals2coefs getrs op2 g = vals2coefs getrs op g) ∧
      (∀ gc : BArr β, coefs2vals ι op2 gc = coefs2vals ι op gc) ∧
      (∀ gc : BArr α, ∀ n m : ℤ, coefs2eval1 op2 gc n m = coefs2eval1 op gc n m) := by
  refine ⟨reconCtor op.lambda_ ((h5_write op).eps.getD 0) op.dlr_rf op.dlr2d_if
    op.cf2if op.if2cf_lu op.if2cf_piv, ?_, rfl, hcols, rfl, rfl, rfl, rfl, rfl,
    rfl, ?_, ?_, ?_⟩
  · unfold h5_read h5_write
    rw [if_pos rfl]
  · intro g
    exact vals2coefs_eqOps getrs
      (reconCtor op.lambda_ ((h5_write op).eps.getD 0) op.dlr_rf op.dlr2d_if
        op.cf2if op.if2cf_lu op.if2cf_piv) op hcols rfl rfl g
  · intro gc
    exact coefs2vals_eqOps ι
      (reconCtor op.lambda_ ((h5_write op).eps.getD 0) op.dlr_rf op.dlr2d_if
        op.cf2if op.if2cf_lu op.if2cf_piv) op hcols rfl gc
  · intro gc n m
    exact coefs2eval1_eqOps
      (reconCtor op.lambda_ ((h5_write op).eps.getD 0) op.dlr_rf op.dlr2d_if
        op.cf2if op.if2cf_lu op.if2cf_piv) op hcols gc n m

/-- C5 (amended) witness: the persistence round trip evaluated on the
concrete ready operator `wOp`. -/
theorem c5_persistence_roundtrip_witness :
    wOp.cf2if.cols = wOp.r ∧
    (∃ op2 : ImfreqOps2d ℚ, h5_read (h5_write wOp) = .ok op2 ∧
      op2.lambda_ = wOp.lambda_ ∧ op2.r = wOp.r ∧ op2.dlr_rf = wOp.dlr_rf ∧
      op2.dlr2d_if = wOp.dlr2d_if ∧ op2.cf2if = wOp.cf2if ∧
      op2.if2cf_lu = wOp.if2cf_lu ∧ op2.if2cf_piv = wOp.if2cf_piv ∧
      op2.eps_ = none ∧
      (∀ g : BArr ℚ, vals2coefs idGetrs op2 g = vals2coefs idGetrs wOp g) ∧
      (∀ gc : BArr ℚ, coefs2vals (fun x : ℚ => x) op2 gc =
        coefs2vals (fun x : ℚ => x) wOp gc) ∧
      (∀ gc : BArr ℚ, ∀ n m : ℤ,
        coefs2eval1 op2 gc n m = coefs2eval1 wOp gc n m)) :=
  ⟨rfl, c5_persistence_roundtrip wOp idGetrs (fun x : ℚ => x) rfl⟩

/-- C6: reading a persisted record whose format tag is not
`"cppdlr::imfreq_ops"` fails with the format-mismatch error; the tag is
checked before any data field influences the outcome (the conclusion holds
for every record with a bad tag, whatever its fields hold). -/
theorem c6_format_tag {α : Type} (rec : H5Record α)
    (htag : rec.tag ≠ "cppdlr::imfreq_ops") :
    h5_read rec =
      .error "hdf5_format attribute mismatch: expected cppdlr::imfreq_ops" := by
  unfold h5_read
  rw [if_neg htag]

/-- C6 witness: the concrete record `wBadRec`, tagged `"cppdlr::imtime_ops"`,
is rejected. -/
theorem c6_format_tag_witness :
    wBadRec.tag ≠ "cppdlr::imfreq_ops" ∧
    h5_read wBadRec =
      .error "hdf5_format attribute mismatch: expected cppdlr::imfreq_ops" :=
  ⟨by decide, c6_format_tag wBadRec (by decide)⟩

/-- C7: with a solver that treats right-hand-side columns independently (the
documented multiple-right-hand-side behaviour of `getrs`), transforming a
whole batch and transforming one batch column alone agree, column by column,
for both `vals2coefs` and `coefs2vals`. -/
theorem c7_batch_independence {α β : Type} [Zero α] [Add α] [Mul α]
    (op : ImfreqOps2d α) (getrs : GetrsFn α) (hcw : ColwiseGetrs getrs)
    (ι : β → α) (g : BArr α) (gc : BArr β) (hg : g.lead = op.r)
    (hgc : gc.lead = op.r) (hr : 0 < op.r) (c : ℕ)
    (hcb : c < g.bsize) (hcc : c < gc.bsize) :
    ∃ ov ovc oc occ : BArr α,
      vals2coefs getrs op g = .ok ov ∧
      vals2coefs getrs op (colArr g c) = .ok ovc ∧
      (∀ i < op.r, ov.entry i c = ovc.entry i 0) ∧
      coefs2vals ι op gc = .ok oc ∧
      coefs2vals ι op (colArr gc c) = .ok occ ∧
      (∀ i < op.r, oc.entry i c = occ.entry i 0) := by
  have hdiv := size_div_eq op g hg hr
  refine ⟨_, _, _, _, vals2coefs_ok getrs op g hg,
    vals2coefs_ok getrs op (colArr g c) hg, ?_,
    coefs2vals_ok ι op gc hgc, coefs2vals_ok ι op (colArr gc c) hgc, ?_⟩
  · intro i hi
    have h1c : (colArr g c).size / op.r = 1 := by
      show ((g.lead :: List.nil).prod) / op.r = 1
      rw [List.prod_cons, List.prod_nil, mul_one, hg]
      exact Nat.div_self hr
    refine hcw op.if2cf_lu op.if2cf_piv
      ⟨op.r, g.size / op.r, fun i c => g.entry i c⟩
      ⟨op.r, (colArr g c).size / op.r, fun i c2 => (colArr g c).entry i c2⟩
      c ?_ rfl h1c (fun i => rfl) i hi
    show c < g.size / op.r
    rw [hdiv]
    exact hcb
  · intro i hi
    rfl

/-- C7 witness: batch independence evaluated on the concrete operator `wOp`
with the identity solver, the two-column batch `wG` and column 1. -/
theorem c7_batch_independence_witness :
    (ColwiseGetrs idGetrs ∧ wG.lead = wOp.r ∧ 0 < wOp.r ∧ 1 < wG.bsize) ∧
    (∃ ov ovc oc occ : BArr ℚ,
      vals2coefs idGetrs wOp wG = .ok ov ∧
      vals2coefs idGetrs wOp (colArr wG 1) = .ok ovc ∧
      (∀ i < wOp.r, ov.entry i 1 = ovc.entry i 0) ∧
      coefs2vals (fun x : ℚ => x) wOp wG = .ok oc ∧
      coefs2vals (fun x : ℚ => x) wOp (colArr wG 1) = .ok occ ∧
      (∀ i < wOp.r, oc.entry i 1 = occ.entry i 0)) :=
  ⟨⟨idGetrs_colwise, rfl, by decide, by decide⟩,
    c7_batch_independence wOp idGetrs idGetrs_colwise (fun x : ℚ => x) wG wG
      rfl rfl (by decide) 1 (by decide) (by decide)⟩

/-- C8: feeding a real-valued coefficient array into `coefs2vals` against a
complex `cf2if` yields a complex-valued array (`BArr CQ`, by the promotion
`ratToCQ` of `make_cplx_t`) whose shape is that of the input: leading axis
`r`, batch axes unchanged. -/
theorem c8_scalar_promotion (op : ImfreqOps2d CQ) (gc : BArr ℚ)
    (hgc : gc.lead = op.r) :
    ∃ out : BArr CQ, coefs2vals ratToCQ op gc = .ok out ∧
      out.shape = gc.shape ∧ out.lead = op.r ∧ out.batch = gc.batch := by
  refine ⟨_, coefs2vals_ok ratToCQ op gc hgc, ?_, rfl, rfl⟩
  simp [BArr.shape, hgc]

/-- C8 witness: promotion evaluated on the concrete complex operator `wOpC`
and the real-valued coefficient array `wGcR`. -/
theorem c8_scalar_promotion_witness :
    wGcR.lead = wOpC.r ∧
    (∃ out : BArr CQ, coefs2vals ratToCQ wOpC wGcR = .ok out ∧
      out.shape = wGcR.shape ∧ out.lead = wOpC.r ∧ out.batch = wGcR.batch) :=
  ⟨rfl, c8_scalar_promotion wOpC wGcR rfl⟩

/-- C9: the field-wise reconstruction constructor sets the rank to the column
count of the supplied `cf2if` (whatever the lengths of the node and
real-frequency arrays), stores the supplied fields as-is without node
selection or factorization, leaves `eps_` uninitialized (`none`), and ignores
its `eps` parameter entirely. -/
theorem c9_recon_fields {α : Type} (lambda eps eps2 : ℚ) (rf : List ℚ)
    (nodes : FMat ℤ) (cf2if lu : FMat α) (piv : List ℤ) :
    (reconCtor lambda eps rf nodes cf2if lu piv).r = cf2if.cols ∧
    (reconCtor lambda eps rf nodes cf2if lu piv).eps_ = none ∧
    reconCtor lambda eps rf nodes cf2if lu piv =
      reconCtor lambda eps2 rf nodes cf2if lu piv ∧
    (reconCtor lambda eps rf nodes cf2if lu piv).lambda_ = lambda ∧
    (reconCtor lambda eps rf nodes cf2if lu piv).dlr_rf = rf ∧
    (reconCtor lambda eps rf nodes cf2if lu piv).dlr2d_if = nodes ∧
    (reconCtor lambda eps rf nodes cf2if lu piv).cf2if = cf2if ∧
    (reconCtor lambda eps rf nodes cf2if lu piv).if2cf_lu = lu ∧
    (reconCtor lambda eps rf nodes cf2if lu piv).if2cf_piv = piv :=
  ⟨rfl, rfl, rfl, rfl, rfl, rfl, rfl, rfl, rfl⟩

/-- C10: on rank-1 coefficient arrays whose leading axis has length `r`,
`coefs2eval` returns complex zero whatever the coefficients and the Matsubara
index pair — the evaluation is an unimplemented placeholder. -/
theorem c10_coefs2eval_zero {α : Type} (op : ImfreqOps2d α) (gc : BArr α)
    (n m : ℤ) (hrank : gc.batch = []) (hgc : gc.lead = op.r) :
    coefs2eval1 op gc n m = .ok (0 : CQ) := by
  unfold coefs2eval1
  rw [if_neg (by omega)]

/-- C10 witness: the rank-1 array `wGc1` on `wOp` at the Matsubara pair
`(5, 7)` evaluates to complex zero. -/
theorem c10_coefs2eval_zero_witness :
    (wGc1.batch = [] ∧ wGc1.lead = wOp.r) ∧
    coefs2eval1 wOp wGc1 5 7 = .ok (0 : CQ) :=
  ⟨⟨rfl, rfl⟩, c10_coefs2eval_zero wOp wGc1 5 7 rfl rfl⟩

end Dlr2d
